import Mathlib

/-!
Shallow embedding of the transcription core of the Handy application:
`src-tauri/src/managers/transcription.rs`,
`src-tauri/src/commands/transcription.rs`, and
`src-tauri/src/audio_toolkit/audio/utils.rs`.

Machine floats (`f32`) are modelled as exact rationals, audio sample buffers
as `List ℚ`, and the effectful collaborators (settings store, model catalog,
backend inference bindings, custom-word corrector) as explicit parameters
gathered in a context structure.  The chunked pipeline
`TranscriptionManager::transcribe` is modelled as a pure function that also
records a trace of per-chunk observations (engine used, parameters passed to
the backend, the raw backend result, the batch emitted as a
`transcription-progress` event, and the batch appended to the accumulator).
-/

namespace Handy

/-- A transcription segment `(start, end, text)` (struct `Segment` in
`managers/transcription.rs`); the Rust field `end` is spelled `end_`. -/
structure Segment where
  start : ℚ
  end_ : ℚ
  text : String
  deriving DecidableEq

/-- Result of a backend `transcribe_samples` call (the `transcribe-rs`
result consumed at `transcription.rs:608` and `:649`): an optional segment
list and a plain text field. -/
structure TranscriptionResult where
  segments : Option (List Segment)
  text : String
  deriving DecidableEq

/-- The engine variant tag of the process-wide engine slot
(`enum LoadedEngine` in `managers/transcription.rs`); the backend-specific
weights are opaque to this subsystem, so only the tag is modelled. -/
inductive LoadedEngine where
  | whisper
  | parakeet
  deriving DecidableEq

/-- Engine variant of a catalog entry (`EngineType` in `managers/model.rs`,
referenced from `transcription.rs:177`). -/
inductive EngineType where
  | whisper
  | parakeet
  deriving DecidableEq

/-- Modelled from the spec: the descriptor of the external model catalog
(`ModelManager::get_available_models`, `managers/model.rs`, not included in
the provided sources).  Per spec §3 it carries
`{id, engine_variant, is_downloaded, accuracy_score}`; `accuracy_score` is
modelled as an integer and the `as i32` cast at `transcription.rs:180` as
the identity. -/
structure ModelInfo where
  id : String
  engine_type : EngineType
  is_downloaded : Bool
  accuracy_score : Int
  deriving DecidableEq

/-- `TimestampGranularity` of the Parakeet backend params
(`transcribe-rs`, used at `transcription.rs:595`). -/
inductive TimestampGranularity where
  | segment
  | word
  deriving DecidableEq

/-- Whisper backend params (`WhisperInferenceParams` of `transcribe-rs`).
Only the fields observable through this subsystem are modelled; the Rust
construction at `transcription.rs:577` sets `language` and `translate` and
leaves every other field — in particular `initial_prompt` — at its
`Default::default()` value (`none`). -/
structure WhisperInferenceParams where
  language : Option String
  translate : Bool
  initial_prompt : Option String
  deriving DecidableEq

/-- Parakeet backend params (`ParakeetInferenceParams` of `transcribe-rs`);
the construction at `transcription.rs:594` sets only the timestamp
granularity. -/
structure ParakeetInferenceParams where
  timestamp_granularity : TimestampGranularity
  deriving DecidableEq

/-- Backend-typed params, dispatched on the loaded engine variant. -/
inductive Params where
  | whisper (p : WhisperInferenceParams)
  | parakeet (p : ParakeetInferenceParams)
  deriving DecidableEq

/-- The model-unload timeout setting (`ModelUnloadTimeout` in
`settings.rs`): `Immediately | After(seconds) | Never`. -/
inductive ModelUnloadTimeout where
  | immediately
  | afterSeconds (n : Nat)
  | never
  deriving DecidableEq

/-- The settings fields read by the transcription pipeline
(`get_settings`, spec §6). -/
structure Settings where
  selected_language : String
  translate_to_english : Bool
  custom_words : List String
  word_correction_threshold : ℚ
  model_unload_timeout : ModelUnloadTimeout

/-- `FileTranscriptionOptions` (`commands/transcription.rs:16`). -/
structure FileTranscriptionOptions where
  language : Option String
  translate : Bool

/-- The external collaborators of a transcription run, modelled as explicit
parameters: the settings snapshot, the model catalog
(`get_available_models`), the lifecycle controller's `load_model` (returning
the engine stored in the slot on success), the backend inference call
`transcribe_samples`, and the custom-word corrector `apply_custom_words`
(`audio_toolkit`, not included in the provided sources; treated as an
arbitrary pure function since no claim depends on its internals). -/
structure Ctx where
  settings : Settings
  available : List ModelInfo
  loadModel : String → Except String LoadedEngine
  backend : LoadedEngine → List ℚ → Params → Except String TranscriptionResult
  apply_custom_words : String → List String → ℚ → String

/-- Resolution of effective options (`transcription.rs:490`): caller
options override settings; an absent option language falls back to the
settings language. -/
def effectiveOpts (ctx : Ctx) (options : Option FileTranscriptionOptions) : String × Bool :=
  match options with
  | some opts => (opts.language.getD ctx.settings.selected_language, opts.translate)
  | none => (ctx.settings.selected_language, ctx.settings.translate_to_english)

/-- Whisper language handling (`transcription.rs:565`): `"auto"` maps to
`none`; exactly `"zh-Hans"` and `"zh-Hant"` are normalized to `"zh"`; every
other value is passed through unchanged. -/
def whisperLanguage (selected_language : String) : Option String :=
  if selected_language = "auto" then none
  else some (if selected_language = "zh-Hans" ∨ selected_language = "zh-Hant"
    then "zh" else selected_language)

/-- The backend params built per chunk (`transcription.rs:577` and `:594`),
dispatched on the engine variant in the slot. -/
def paramsFor (sel : String) (tr : Bool) : LoadedEngine → Params
  | .whisper =>
      .whisper { language := whisperLanguage sel, translate := tr, initial_prompt := none }
  | .parakeet => .parakeet { timestamp_granularity := .segment }

/-- Error-message wrapping of a backend failure
(`transcription.rs:585` and `:601`). -/
def backendErrMsg : LoadedEngine → String → String
  | .whisper, e => "Whisper transcription failed: " ++ e
  | .parakeet, e => "Parakeet transcription failed: " ++ e

/-- The effective score used by the capability switcher
(`transcription.rs:180`): ids containing the literal substring `"turbo"`
score 100, every other model scores its catalog `accuracy_score`. -/
def effectiveScore (m : ModelInfo) : Int :=
  if (m.id.splitOn "turbo").length > 1 then 100 else m.accuracy_score

/-- Rust's `Iterator::max_by` with comparison by an integer score: returns
the last maximal element (ties are won by the later element). -/
def maxByLast (f : α → Int) : List α → Option α
  | [] => none
  | x :: xs => some (xs.foldl (fun acc y => if f y < f acc then acc else y) x)

/-- The candidate filter of the capability switcher
(`transcription.rs:177`): downloaded Whisper-family catalog entries. -/
def whisperCandidates (available : List ModelInfo) : List ModelInfo :=
  available.filter fun m =>
    decide (m.engine_type = EngineType.whisper) && m.is_downloaded

/-- `TranscriptionManager::ensure_translation_capable_engine`
(`transcription.rs:161`), as a pure function of the engine slot, the
catalog, and `load_model`.  On success the returned option is the new slot
content; a `load_model` failure propagates as an error (the caller logs it
and keeps the old slot). -/
def ensure_translation_capable_engine (engine : Option LoadedEngine)
    (available : List ModelInfo) (loadModel : String → Except String LoadedEngine) :
    Except String (Option LoadedEngine) :=
  if engine = some LoadedEngine.parakeet then
    match maxByLast effectiveScore (whisperCandidates available) with
    | some model => (loadModel model.id).map some
    | none => Except.ok engine
  else Except.ok engine

/-- Rust's `slice::chunks`, fuel-based so that the kernel can evaluate it
(fuel is the input length; one chunk is produced per step). -/
def chunksGo (n : Nat) : Nat → List α → List (List α)
  | _, [] => []
  | 0, _ :: _ => []
  | fuel + 1, x :: rest => (x :: rest).take n :: chunksGo n fuel ((x :: rest).drop n)

/-- `audio.chunks(chunk_size)` (`transcription.rs:517`): consecutive slices
of `n` elements, the final chunk possibly shorter.  (`slice::chunks` panics
on `n = 0`; the pipeline only calls it with `n = 80000`.) -/
def chunks (n : Nat) (xs : List α) : List (List α) :=
  chunksGo n xs.length xs

/-- Rust's `str::trim`: drop leading and trailing whitespace.  Written on
the character list so that it evaluates inside the kernel (`String.trim`
is defined through well-founded recursion on byte positions and does not
reduce). -/
def rustTrim (s : String) : String :=
  String.mk (((s.data.dropWhile Char.isWhitespace).reverse.dropWhile
    Char.isWhitespace).reverse)

/-- The custom-word correction step (`transcription.rs:629` and `:674`):
applied only when the configured word list is non-empty. -/
def correctText (ctx : Ctx) (t : String) : String :=
  if ctx.settings.custom_words ≠ [] then
    ctx.apply_custom_words t ctx.settings.custom_words ctx.settings.word_correction_threshold
  else t

/-- Post-processing of one accumulated segment (`transcription.rs:639` and
`:683`): times are kept, text is corrected and trimmed. -/
def processSegment (ctx : Ctx) (s : Segment) : Segment :=
  { start := s.start, end_ := s.end_, text := rustTrim (correctText ctx s.text) }

/-- Timestamp stitching (`transcription.rs:609`): shift each backend
segment by the accumulated offset `previous_end_time`. -/
def shiftSegs (p : ℚ) (l : List Segment) : List Segment :=
  l.map fun s => { start := s.start + p, end_ := s.end_ + p, text := s.text }

/-- The batch emitted for one chunk (`chunk_segments_vec`,
`transcription.rs:625`): the corrected shifted segments when the backend
returned segments, otherwise — when the backend text is non-empty after
trimming — one synthetic segment spanning the chunk's global time window
(`transcription.rs:649`, written literally as
`previous_end_time - duration_sec` after the offset update). -/
def emittedOf (ctx : Ctx) (p d : ℚ) (chunk_segments : List Segment) (text : String) :
    List Segment :=
  if chunk_segments ≠ [] then chunk_segments.map (processSegment ctx)
  else if rustTrim text ≠ "" then
    [{ start := (p + d) - d, end_ := p + d, text := rustTrim text }]
  else []

/-- Per-chunk trace record: everything the loop body of
`TranscriptionManager::transcribe` observes and produces for one chunk. -/
structure ChunkStep where
  chunkIndex : Nat
  chunkLen : Nat
  offsetApplied : ℚ
  engineUsed : LoadedEngine
  paramsUsed : Params
  backendResult : TranscriptionResult
  emittedBatch : List Segment
  accumBatch : List Segment
  deriving DecidableEq

/-- The engine slot after the optional capability switch at the top of the
loop body (`transcription.rs:544`): the switch runs only when translation
is requested, and a failed switch keeps the current engine. -/
def switchedEngine (ctx : Ctx) (tr : Bool) (engine : Option LoadedEngine) :
    Option LoadedEngine :=
  if tr then
    match ensure_translation_capable_engine engine ctx.available ctx.loadModel with
    | .ok e => e
    | .error _ => engine
  else engine

/-- The loop body for one chunk (`transcription.rs:537`–`:667`): optional
capability switch, engine-slot check, backend call, timestamp stitching and
batch construction.  Errors abort the whole transcription and carry the
engine slot as it stands. -/
def processChunk (ctx : Ctx) (sel : String) (tr : Bool) (engine : Option LoadedEngine)
    (i : Nat) (p : ℚ) (c : List ℚ) :
    Except (String × Option LoadedEngine) (ChunkStep × LoadedEngine) :=
  match switchedEngine ctx tr engine with
  | none => .error ("Model failed to load. Please check your model settings.", none)
  | some eng =>
    match ctx.backend eng c (paramsFor sel tr eng) with
    | .error e => .error (backendErrMsg eng e, some eng)
    | .ok result =>
      let chunk_segments := shiftSegs p (result.segments.getD [])
      .ok ({ chunkIndex := i, chunkLen := c.length, offsetApplied := p,
             engineUsed := eng, paramsUsed := paramsFor sel tr eng,
             backendResult := result,
             emittedBatch := emittedOf ctx p ((c.length : ℚ) / 16000) chunk_segments result.text,
             accumBatch := chunk_segments }, eng)

/-- Result of the chunk loop: the per-chunk trace, the final engine slot,
and the abort error if one occurred. -/
structure LoopOut where
  trace : List ChunkStep
  engine : Option LoadedEngine
  err : Option String

/-- The chunk loop (`transcription.rs:528`–`:669`): polls the cancellation
token before each chunk (a set token terminates the loop without error;
the Rust `was_cancelled` flag is never read afterwards), then runs the loop
body and threads the engine slot and the time offset. -/
def runChunks (ctx : Ctx) (sel : String) (tr : Bool) (canc : Nat → Bool) :
    Option LoadedEngine → Nat → ℚ → List (List ℚ) → LoopOut
  | engine, _, _, [] => { trace := [], engine := engine, err := none }
  | engine, i, p, c :: rest =>
    if canc i then { trace := [], engine := engine, err := none }
    else
      match processChunk ctx sel tr engine i p c with
      | .error (e, eng) => { trace := [], engine := eng, err := some e }
      | .ok (step, eng) =>
        let out := runChunks ctx sel tr canc (some eng) (i + 1) (p + (c.length : ℚ) / 16000) rest
        { trace := step :: out.trace, engine := out.engine, err := out.err }

/-- `TranscriptionManager::maybe_unload_immediately`
(`transcription.rs:239`): unloads the engine iff the unload-timeout setting
is `Immediately` and a model is loaded.  Returns the new slot and whether
an unload happened. -/
def maybe_unload_immediately (ctx : Ctx) (engine : Option LoadedEngine) :
    Option LoadedEngine × Bool :=
  if ctx.settings.model_unload_timeout = ModelUnloadTimeout.immediately ∧ engine.isSome = true
  then (none, true) else (engine, false)

/-- Final segment list (`transcription.rs:673`): the accumulated raw
segments, text-corrected and trimmed. -/
def finalSegments (ctx : Ctx) (trace : List ChunkStep) : List Segment :=
  ((trace.map ChunkStep.accumBatch).flatten).map (processSegment ctx)

/-- Everything observable about one `transcribe` run: the returned value,
the `transcription-progress` batches in emission order, the per-chunk trace
(one entry per backend invocation), the engine slot on return, and whether
the immediate-unload policy fired. -/
structure TranscribeOutput where
  result : Except String (String × List Segment)
  progressEvents : List (List Segment)
  engineCalls : List ChunkStep
  finalEngine : Option LoadedEngine
  unloadedImmediately : Bool

/-- `TranscriptionManager::transcribe` (`transcription.rs:448`–`:717`):
empty-input early return (before the loaded-model check), loaded-model
check, effective-option resolution, the chunk loop over 80,000-sample
chunks, final-result construction, and the immediate-unload policy.
`engine0` is the engine slot observed after waiting for any in-flight
load; `cancelled i` is the value of the cancellation token at the poll
before chunk `i`. -/
def transcribe (ctx : Ctx) (engine0 : Option LoadedEngine) (cancelled : Nat → Bool)
    (audio : List ℚ) (options : Option FileTranscriptionOptions) : TranscribeOutput :=
  if audio = [] then
    let u := maybe_unload_immediately ctx engine0
    { result := .ok ("", []), progressEvents := [], engineCalls := [],
      finalEngine := u.1, unloadedImmediately := u.2 }
  else if engine0.isNone then
    { result := .error "Model is not loaded for transcription.", progressEvents := [],
      engineCalls := [], finalEngine := engine0, unloadedImmediately := false }
  else
    let eo := effectiveOpts ctx options
    let lp := runChunks ctx eo.1 eo.2 cancelled engine0 0 0 (chunks 80000 audio)
    let events := lp.trace.filterMap fun st =>
      if st.emittedBatch = [] then none else some st.emittedBatch
    match lp.err with
    | some e =>
      { result := .error e, progressEvents := events, engineCalls := lp.trace,
        finalEngine := lp.engine, unloadedImmediately := false }
    | none =>
      let segs := finalSegments ctx lp.trace
      let text := String.intercalate " " (segs.map Segment.text)
      let u := maybe_unload_immediately ctx lp.engine
      { result := .ok (text, segs), progressEvents := events, engineCalls := lp.trace,
        finalEngine := u.1, unloadedImmediately := u.2 }

/-! ### Audio decoder (`audio_toolkit/audio/utils.rs::read_audio_file`) -/

/-- Outcome of decoding one packet (`decoder.decode`,
`utils.rs:94`–`:187`): a successfully decoded buffer (per-format channel
mixing abstracted to the resulting mono samples, since the claims concern
the control flow), the `_ =>` arm for an unsupported buffer layout, a
recoverable `DecodeError`, or any other (fatal) error. -/
inductive DecodeOutcome where
  | frames (samples : List ℚ)
  | unknownBufferFormat
  | decodeError (msg : String)
  | fatal (msg : String)
  deriving DecidableEq

/-- Outcome of `format.next_packet()` (`utils.rs:84`): a packet for some
track, an `IoError` (treated as end of stream), or any other (fatal)
error. -/
inductive PacketOutcome where
  | packet (trackId : Nat) (dec : DecodeOutcome)
  | ioError (msg : String)
  | fatal (msg : String)
  deriving DecidableEq

/-- The environment of one `read_audio_file` call: how `File::open`, the
container probe, the track search, the codec lookup and the packet stream
behave for the given path. -/
structure AudioFileEnv where
  openResult : Except String Unit
  probeSupported : Bool
  hasAudioTrack : Bool
  codecSupported : Bool
  trackId : Nat
  sampleRate : Nat
  packets : List PacketOutcome

/-- A run outcome distinguishing a returned failure from a panic (the Rust
`.expect(...)` calls at `utils.rs:54` and `:68` panic instead of returning
an error). -/
inductive DecoderOutcome where
  | ok (samples : List ℚ)
  | error (msg : String)
  | panicked (msg : String)
  deriving DecidableEq

/-- The packet loop of `read_audio_file` (`utils.rs:83`–`:188`): packets of
other tracks are skipped, an `IoError` from `next_packet` ends the loop
normally, per-packet decode errors are logged and skipped, an unsupported
buffer layout or any other error returns a failure.  The end of the
modelled packet list stands for the end of the stream. -/
def decodeLoop (trackId : Nat) (acc : List ℚ) : List PacketOutcome → Except String (List ℚ)
  | [] => .ok acc
  | .ioError _ :: _ => .ok acc
  | .fatal e :: _ => .error e
  | .packet tid dec :: rest =>
    if tid ≠ trackId then decodeLoop trackId acc rest
    else
      match dec with
      | .frames s => decodeLoop trackId (acc ++ s) rest
      | .decodeError _ => decodeLoop trackId acc rest
      | .unknownBufferFormat => .error "Unsupported audio buffer format"
      | .fatal e => .error e

/-- `read_audio_file` (`utils.rs:37`–`:216`): open the file (`?` on
failure), probe the container (`.expect` — a panic — when unsupported),
find an audio track, build a decoder (`.expect` — a panic — when the codec
is unsupported), run the packet loop, and resample when the source rate is
not 16 kHz (the rubato resampler is abstracted as a parameter). -/
def read_audio_file (env : AudioFileEnv)
    (resample : List ℚ → Except String (List ℚ)) : DecoderOutcome :=
  match env.openResult with
  | .error e => .error e
  | .ok _ =>
    if env.probeSupported = false then .panicked "Unsupported format"
    else if env.hasAudioTrack = false then .error "No audio track found"
    else if env.codecSupported = false then .panicked "Unsupported codec"
    else
      match decodeLoop env.trackId [] env.packets with
      | .error e => .error e
      | .ok samples =>
        if env.sampleRate ≠ 16000 then
          match resample samples with
          | .ok s => .ok s
          | .error e => .error e
        else .ok samples

/-! ### Concrete instances used by witnesses and counterexamples -/

/-- A minimal concrete context used by several witnesses: no custom words,
unload timeout `Never`, empty catalog, backend returning no segments and
empty text. -/
def ctxBasic : Ctx :=
  { settings :=
      { selected_language := "en", translate_to_english := false, custom_words := [],
        word_correction_threshold := 0, model_unload_timeout := ModelUnloadTimeout.never },
    available := [],
    loadModel := fun _ => Except.error "catalog is empty",
    backend := fun _ _ _ => Except.ok { segments := none, text := "" },
    apply_custom_words := fun t _ _ => t }

/-- Witness catalog for C7, following the spec's §8 scenario: a downloaded
Whisper model `"small"` of score 60 and a downloaded Whisper model
`"medium-turbo"` of score 40; the switcher scores `"medium-turbo"` at 100
and loads it. -/
def catalogW : List ModelInfo :=
  [{ id := "small", engine_type := EngineType.whisper, is_downloaded := true,
     accuracy_score := 60 },
   { id := "medium-turbo", engine_type := EngineType.whisper, is_downloaded := true,
     accuracy_score := 40 }]

/-- Load function for the C7 witness: every load succeeds with a Whisper
engine. -/
def loadW : String → Except String LoadedEngine := fun _ => Except.ok LoadedEngine.whisper

/-! ### The trace-shape invariant -/

/-- The shape every chunk-trace record has by construction of the loop
body: the accumulated batch is the backend's segment list shifted by the
offset in force, the emitted batch is the corrected batch or the synthetic
fallback segment, and the params are the ones built for the engine used. -/
def StepShape (ctx : Ctx) (sel : String) (tr : Bool) (step : ChunkStep) : Prop :=
  step.paramsUsed = paramsFor sel tr step.engineUsed
  ∧ step.accumBatch = shiftSegs step.offsetApplied (step.backendResult.segments.getD [])
  ∧ step.emittedBatch = emittedOf ctx step.offsetApplied ((step.chunkLen : ℚ) / 16000)
      step.accumBatch step.backendResult.text

/-- Monotone, non-overlapping timestamps: every segment satisfies
`start ≤ end`, and consecutive segments satisfy `end ≤ next start`. -/
def SegMonotone (l : List Segment) : Prop :=
  (∀ s ∈ l, s.start ≤ s.end_)
  ∧ List.Chain' (fun a b => a.end_ ≤ b.start) l

/-- Segments chained inside the time window `[p, q]`. -/
def WindowedChainFrom (p q : ℚ) (l : List Segment) : Prop :=
  (∀ s ∈ l, p ≤ s.start ∧ s.start ≤ s.end_ ∧ s.end_ ≤ q)
  ∧ List.Chain' (fun a b => a.end_ ≤ b.start) l

/-- Claim C1's hypothesis on the backend, for one chunk: every invocation
returns (no inference error) segments with chunk-local times inside
`[0, chunk_len / 16000]`, non-decreasing across the returned list. -/
def BackendChunkLocalOk (ctx : Ctx) (c : List ℚ) : Prop :=
  ∀ (eng : LoadedEngine) (pr : Params), ∃ r, ctx.backend eng c pr = Except.ok r
    ∧ (∀ s ∈ r.segments.getD [],
        0 ≤ s.start ∧ s.start ≤ s.end_ ∧ s.end_ ≤ (c.length : ℚ) / 16000)
    ∧ List.Chain' (fun a b => a.end_ ≤ b.start) (r.segments.getD [])

/-- Context for the C1 witness: the backend yields, for every chunk, one
segment spanning exactly the chunk-local window. -/
def ctxSeg : Ctx :=
  { ctxBasic with
    backend := fun _ c _ => Except.ok
      { segments := some [{ start := 0, end_ := (c.length : ℚ) / 16000, text := "w" }],
        text := "w" } }

/-- Context for counterexamples around the synthetic-segment fallback:
the backend returns an empty segment list and the text `"hi"` for every
chunk. -/
def ctxText : Ctx :=
  { ctxBasic with
    backend := fun _ _ _ => Except.ok { segments := some [], text := "hi" } }

/-- Context for the initial-prompt counterexample: the backend returns one
segment with non-empty text `"hello"` for every chunk. -/
def ctxHello : Ctx :=
  { ctxBasic with
    backend := fun _ _ _ => Except.ok
      { segments := some [{ start := 0, end_ := 1, text := "hello" }], text := "hello" } }

/-- A cancellation token that reads `true` from the poll before chunk 1 on:
set after chunk 0 starts, before chunk 1 is processed. -/
def cancAt1 : Nat → Bool := fun i => decide (1 ≤ i)

/-- 80,001 zero samples: exactly one full 80,000-sample chunk plus a final
one-sample chunk. -/
def audioTwo : List ℚ := List.replicate 80001 0

/-- Decoder environment: a file that opens but whose container format the
probe does not support. -/
def envProbeFail : AudioFileEnv :=
  { openResult := Except.ok (), probeSupported := false, hasAudioTrack := true,
    codecSupported := true, trackId := 0, sampleRate := 16000, packets := [] }

/-- Decoder environment: a supported container whose codec the registry
does not support. -/
def envCodecFail : AudioFileEnv :=
  { openResult := Except.ok (), probeSupported := true, hasAudioTrack := true,
    codecSupported := false, trackId := 0, sampleRate := 16000, packets := [] }

/-- Decoder environment: a decodable stream containing one good packet, a
packet with a recoverable decode error, a packet of another track, another
good packet, then an I/O end-of-stream, then junk that is never read. -/
def envGood : AudioFileEnv :=
  { openResult := Except.ok (), probeSupported := true, hasAudioTrack := true,
    codecSupported := true, trackId := 0, sampleRate := 16000,
    packets := [PacketOutcome.packet 0 (DecodeOutcome.frames [1]),
      PacketOutcome.packet 0 (DecodeOutcome.decodeError "bad frame"),
      PacketOutcome.packet 1 (DecodeOutcome.frames [9]),
      PacketOutcome.packet 0 (DecodeOutcome.frames [2]),
      PacketOutcome.ioError "eof",
      PacketOutcome.packet 0 (DecodeOutcome.frames [3])] }

/-- Decoder environment: the file fails to open. -/
def envOpenFail : AudioFileEnv :=
  { openResult := Except.error "file not found", probeSupported := true,
    hasAudioTrack := true, codecSupported := true, trackId := 0, sampleRate := 16000,
    packets := [] }

/-! ### General lemmas -/

theorem maxByLast_spec (f : α → Int) (x : α) (xs : List α) :
    ∃ m, maxByLast f (x :: xs) = some m ∧ m ∈ x :: xs ∧ ∀ y ∈ x :: xs, f y ≤ f m := by
  induction xs generalizing x with
  | nil =>
    refine ⟨x, rfl, List.mem_singleton.mpr rfl, ?_⟩
    intro y hy
    rw [List.mem_singleton] at hy
    subst hy
    exact le_refl _
  | cons y ys ih =>
    obtain ⟨m, hm, hmem, hmax⟩ := ih (if f y < f x then x else y)
    refine ⟨m, ?_, ?_, ?_⟩
    · simpa [maxByLast] using hm
    · by_cases h : f y < f x <;> simp [h] at hmem <;> rcases hmem with h' | h' <;>
        simp [h', List.mem_cons]
    · intro z hz
      have hx : f (if f y < f x then x else y) ≤ f m := hmax _ (List.mem_cons_self _ _)
      have hxx : f x ≤ f m := by
        by_cases h : f y < f x
        · simpa [h] using hx
        · exact le_trans (le_of_not_lt h) (by simpa [h] using hx)
      have hyy : f y ≤ f m := by
        by_cases h : f y < f x
        · exact le_trans (le_of_lt h) (by simpa [h] using hx)
        · simpa [h] using hx
      rcases List.mem_cons.mp hz with h1 | h1
      · rw [h1]; exact hxx
      · rcases List.mem_cons.mp h1 with h2 | h2
        · rw [h2]; exact hyy
        · exact hmax _ (List.mem_cons_of_mem _ h2)

theorem chunksGo_nil (n fuel : Nat) : chunksGo n fuel ([] : List α) = [] := by
  cases fuel <;> rfl

theorem chunksGo_congr (n : Nat) (hn : n ≠ 0) :
    ∀ (f g : Nat) (xs : List α), xs.length ≤ f → xs.length ≤ g →
      chunksGo n f xs = chunksGo n g xs := by
  intro f
  induction f with
  | zero =>
    intro g xs hf _
    have hx : xs = [] := List.eq_nil_of_length_eq_zero (Nat.le_zero.mp hf)
    subst hx
    rw [chunksGo_nil, chunksGo_nil]
  | succ f ih =>
    intro g xs hf hg
    cases xs with
    | nil => rw [chunksGo_nil, chunksGo_nil]
    | cons x rest =>
      cases g with
      | zero => simp at hg
      | succ g' =>
        show (x :: rest).take n :: chunksGo n f ((x :: rest).drop n)
          = (x :: rest).take n :: chunksGo n g' ((x :: rest).drop n)
        congr 1
        apply ih
        · simp only [List.length_drop, List.length_cons]
          simp only [List.length_cons] at hf
          omega
        · simp only [List.length_drop, List.length_cons]
          simp only [List.length_cons] at hg
          omega

theorem chunks_cons (n : Nat) (hn : n ≠ 0) {xs : List α} (h : xs ≠ []) :
    chunks n xs = xs.take n :: chunks n (xs.drop n) := by
  obtain ⟨x, rest, rfl⟩ := List.exists_cons_of_ne_nil h
  show chunksGo n (x :: rest).length (x :: rest) = _
  rw [List.length_cons]
  show (x :: rest).take n :: chunksGo n rest.length ((x :: rest).drop n) = _
  congr 1
  apply chunksGo_congr n hn
  · simp only [List.length_drop, List.length_cons]
    omega
  · exact le_refl _

theorem chunks_take (n : Nat) (hn : n ≠ 0) :
    ∀ (k : Nat) (xs : List α), chunks n (xs.take (k * n)) = (chunks n xs).take k := by
  intro k
  induction k with
  | zero => intro xs; simp [chunks, chunksGo_nil]
  | succ k ih =>
    intro xs
    by_cases h : xs = []
    · subst h; simp [chunks, chunksGo_nil]
    · have h1 : xs.take ((k + 1) * n) ≠ [] := by
        rw [Ne, List.take_eq_nil_iff]
        push_neg
        exact ⟨Nat.mul_ne_zero (Nat.succ_ne_zero k) hn, h⟩
      rw [chunks_cons n hn h1, chunks_cons n hn h, List.take_take, List.drop_take]
      have hmin : n ⊓ ((k + 1) * n) = n :=
        min_eq_left (Nat.le_mul_of_pos_left n (Nat.succ_pos k))
      have hsub : (k + 1) * n - n = k * n := by
        rw [Nat.add_mul, one_mul]
        omega
      rw [hmin, hsub, List.take_succ_cons]
      congr 1
      exact ih (xs.drop n)

theorem ensure_ok_some (av : List ModelInfo) (lm : String → Except String LoadedEngine)
    (r : Option LoadedEngine) (e : LoadedEngine)
    (h : ensure_translation_capable_engine (some e) av lm = Except.ok r) :
    ∃ e', r = some e' := by
  unfold ensure_translation_capable_engine at h
  by_cases hp : (some e = some LoadedEngine.parakeet)
  · rw [if_pos hp] at h
    cases hm : maxByLast effectiveScore (whisperCandidates av) with
    | none => rw [hm] at h; simp at h; exact ⟨e, h.symm⟩
    | some model =>
      rw [hm] at h
      dsimp only at h
      cases hl : lm model.id with
      | error err => rw [hl] at h; simp [Except.map] at h
      | ok eng => rw [hl] at h; simp [Except.map] at h; exact ⟨eng, h.symm⟩
  · rw [if_neg hp] at h; simp at h; exact ⟨e, h.symm⟩

theorem switchedEngine_some (ctx : Ctx) (tr : Bool) (e : LoadedEngine) :
    ∃ e', switchedEngine ctx tr (some e) = some e' := by
  unfold switchedEngine
  by_cases ht : tr
  · rw [if_pos ht]
    cases hE : ensure_translation_capable_engine (some e) ctx.available ctx.loadModel with
    | ok r =>
      obtain ⟨e', rfl⟩ := ensure_ok_some ctx.available ctx.loadModel r e hE
      exact ⟨e', rfl⟩
    | error m => exact ⟨e, rfl⟩
  · rw [if_neg ht]; exact ⟨e, rfl⟩

theorem processChunk_ok (ctx : Ctx) (sel : String) (tr : Bool)
    (engine : Option LoadedEngine) (i : Nat) (p : ℚ) (c : List ℚ)
    (step : ChunkStep) (eng2 : LoadedEngine)
    (h : processChunk ctx sel tr engine i p c = Except.ok (step, eng2)) :
    step.chunkIndex = i ∧ step.chunkLen = c.length ∧ step.offsetApplied = p
    ∧ step.engineUsed = eng2 ∧ StepShape ctx sel tr step
    ∧ ctx.backend eng2 c (paramsFor sel tr eng2) = Except.ok step.backendResult := by
  unfold processChunk at h
  cases hE : switchedEngine ctx tr engine with
  | none => rw [hE] at h; simp at h
  | some eng =>
    rw [hE] at h
    dsimp only at h
    cases hB : ctx.backend eng c (paramsFor sel tr eng) with
    | error e => rw [hB] at h; simp at h
    | ok result =>
      rw [hB] at h
      dsimp only at h
      simp only [Except.ok.injEq, Prod.mk.injEq] at h
      obtain ⟨hstep, heng⟩ := h
      subst heng
      subst hstep
      exact ⟨rfl, rfl, rfl, rfl, ⟨rfl, rfl, rfl⟩, hB⟩

theorem runChunks_trace_spec (ctx : Ctx) (sel : String) (tr : Bool) (canc : Nat → Bool) :
    ∀ (cs : List (List ℚ)) (engine : Option LoadedEngine) (i0 : Nat) (p : ℚ),
      ∀ step ∈ (runChunks ctx sel tr canc engine i0 p cs).trace,
        StepShape ctx sel tr step
        ∧ step.offsetApplied
            = p + (((cs.take (step.chunkIndex - i0)).map fun c => (c.length : ℚ) / 16000).sum)
        ∧ i0 ≤ step.chunkIndex ∧ step.chunkIndex < i0 + cs.length := by
  intro cs
  induction cs with
  | nil =>
    intro engine i0 p step hstep
    simp [runChunks] at hstep
  | cons c rest ih =>
    intro engine i0 p step hstep
    by_cases hc : canc i0
    · simp [runChunks, hc] at hstep
    · simp only [runChunks, hc, Bool.false_eq_true, if_false] at hstep
      cases hP : processChunk ctx sel tr engine i0 p c with
      | error pe =>
        rw [hP] at hstep
        simp at hstep
      | ok pr =>
        obtain ⟨st0, eng⟩ := pr
        rw [hP] at hstep
        simp only [List.mem_cons] at hstep
        rcases hstep with h0 | h0
        · subst h0
          obtain ⟨hi, hl, hp, _, hshape, _⟩ := processChunk_ok ctx sel tr engine i0 p c step eng hP
          refine ⟨hshape, ?_, ?_, ?_⟩
          · rw [hi, hp]
            simp
          · rw [hi]
          · rw [hi]
            simp
        · obtain ⟨hshape, hoff, hlow, hhigh⟩ :=
            ih (some eng) (i0 + 1) (p + (c.length : ℚ) / 16000) step h0
          refine ⟨hshape, ?_, ?_, ?_⟩
          · rw [hoff]
            have hd : step.chunkIndex - i0 = (step.chunkIndex - (i0 + 1)) + 1 := by omega
            rw [hd, List.take_succ_cons, List.map_cons, List.sum_cons]
            ring
          · omega
          · simp only [List.length_cons]
            omega

theorem transcribe_calls (ctx : Ctx) (e : LoadedEngine) (canc : Nat → Bool)
    (audio : List ℚ) (opts : Option FileTranscriptionOptions) (h1 : audio ≠ []) :
    (transcribe ctx (some e) canc audio opts).engineCalls =
      (runChunks ctx (effectiveOpts ctx opts).1 (effectiveOpts ctx opts).2 canc (some e)
        0 0 (chunks 80000 audio)).trace := by
  simp only [transcribe, if_neg h1]
  cases herr : (runChunks ctx (effectiveOpts ctx opts).1 (effectiveOpts ctx opts).2 canc (some e)
      0 0 (chunks 80000 audio)).err <;>
    simp [herr]

theorem transcribe_events (ctx : Ctx) (e : LoadedEngine) (canc : Nat → Bool)
    (audio : List ℚ) (opts : Option FileTranscriptionOptions) (h1 : audio ≠ []) :
    (transcribe ctx (some e) canc audio opts).progressEvents =
      (runChunks ctx (effectiveOpts ctx opts).1 (effectiveOpts ctx opts).2 canc (some e)
        0 0 (chunks 80000 audio)).trace.filterMap
        (fun st => if st.emittedBatch = [] then none else some st.emittedBatch) := by
  simp only [transcribe, if_neg h1]
  cases herr : (runChunks ctx (effectiveOpts ctx opts).1 (effectiveOpts ctx opts).2 canc (some e)
      0 0 (chunks 80000 audio)).err <;>
    simp [herr]

theorem transcribe_result_of_err (ctx : Ctx) (e : LoadedEngine) (canc : Nat → Bool)
    (audio : List ℚ) (opts : Option FileTranscriptionOptions) (h1 : audio ≠ []) (er : String)
    (herr : (runChunks ctx (effectiveOpts ctx opts).1 (effectiveOpts ctx opts).2 canc (some e)
      0 0 (chunks 80000 audio)).err = some er) :
    (transcribe ctx (some e) canc audio opts).result = Except.error er := by
  simp only [transcribe, if_neg h1]
  simp [herr]

theorem transcribe_result_of_ok (ctx : Ctx) (e : LoadedEngine) (canc : Nat → Bool)
    (audio : List ℚ) (opts : Option FileTranscriptionOptions) (h1 : audio ≠ [])
    (herr : (runChunks ctx (effectiveOpts ctx opts).1 (effectiveOpts ctx opts).2 canc (some e)
      0 0 (chunks 80000 audio)).err = none) :
    (transcribe ctx (some e) canc audio opts).result =
      Except.ok
        (String.intercalate " "
          ((finalSegments ctx (runChunks ctx (effectiveOpts ctx opts).1
            (effectiveOpts ctx opts).2 canc (some e) 0 0 (chunks 80000 audio)).trace).map
              Segment.text),
         finalSegments ctx (runChunks ctx (effectiveOpts ctx opts).1
           (effectiveOpts ctx opts).2 canc (some e) 0 0 (chunks 80000 audio)).trace) := by
  simp only [transcribe, if_neg h1]
  simp [herr]

/-! ### Chained-window lemmas for the timestamp invariant -/

theorem windowedChain_nil (p : ℚ) : WindowedChainFrom p p [] :=
  ⟨by simp, List.chain'_nil⟩

theorem segMonotone_of_windowed {p q : ℚ} {l : List Segment}
    (h : WindowedChainFrom p q l) : SegMonotone l :=
  ⟨fun s hs => ((h.1 s hs).2.1), h.2⟩

theorem windowedChain_append {p p' q : ℚ} {B L : List Segment}
    (hB : WindowedChainFrom p p' B) (hL : WindowedChainFrom p' q L)
    (hpq : p ≤ p') (hq : p' ≤ q) :
    WindowedChainFrom p q (B ++ L) := by
  obtain ⟨hBw, hBc⟩ := hB
  obtain ⟨hLw, hLc⟩ := hL
  constructor
  · intro s hs
    rcases List.mem_append.mp hs with hs | hs
    · obtain ⟨h1, h2, h3⟩ := hBw s hs
      exact ⟨h1, h2, le_trans h3 hq⟩
    · obtain ⟨h1, h2, h3⟩ := hLw s hs
      exact ⟨le_trans hpq h1, h2, h3⟩
  · rw [List.chain'_append]
    refine ⟨hBc, hLc, ?_⟩
    intro x hx y hy
    exact le_trans (hBw x (List.mem_of_mem_getLast? hx)).2.2
      (hLw y (List.mem_of_mem_head? hy)).1

theorem windowedChain_map_process (ctx : Ctx) {p q : ℚ} {l : List Segment}
    (h : WindowedChainFrom p q l) :
    WindowedChainFrom p q (l.map (processSegment ctx)) := by
  obtain ⟨hw, hc⟩ := h
  constructor
  · intro s hs
    rw [List.mem_map] at hs
    obtain ⟨t, ht, rfl⟩ := hs
    exact hw t ht
  · rw [List.chain'_map]
    exact List.Chain'.imp (fun a b hab => hab) hc

theorem shiftSegs_window (p d : ℚ) (l : List Segment)
    (hw : ∀ s ∈ l, 0 ≤ s.start ∧ s.start ≤ s.end_ ∧ s.end_ ≤ d)
    (hc : List.Chain' (fun a b => a.end_ ≤ b.start) l) :
    WindowedChainFrom p (p + d) (shiftSegs p l) := by
  constructor
  · intro s hs
    rw [shiftSegs, List.mem_map] at hs
    obtain ⟨t, ht, rfl⟩ := hs
    obtain ⟨h1, h2, h3⟩ := hw t ht
    refine ⟨?_, ?_, ?_⟩
    · show p ≤ t.start + p
      linarith
    · show t.start + p ≤ t.end_ + p
      linarith
    · show t.end_ + p ≤ p + d
      linarith
  · rw [shiftSegs, List.chain'_map]
    exact List.Chain'.imp (fun a b hab => by simpa using hab) hc

theorem emittedOf_window (ctx : Ctx) {p d : ℚ} (hd : 0 ≤ d) {B : List Segment} (text : String)
    (hB : WindowedChainFrom p (p + d) B) :
    WindowedChainFrom p (p + d) (emittedOf ctx p d B text) := by
  by_cases h : B = []
  · subst h
    rw [emittedOf]
    simp only [ne_eq, not_true_eq_false, if_false]
    by_cases ht : rustTrim text = ""
    · simp only [ht, ne_eq, not_true_eq_false, if_false]
      exact ⟨by simp, List.chain'_nil⟩
    · simp only [ht, ne_eq, not_false_eq_true, if_true]
      refine ⟨?_, List.chain'_singleton _⟩
      intro s hs
      rw [List.mem_singleton] at hs
      subst hs
      refine ⟨by simp, ?_, by simp⟩
      simp only
      linarith
  · rw [emittedOf, if_pos h]
    exact windowedChain_map_process ctx hB

/-! ### The chunk loop preserves the timestamp chain -/

theorem runChunks_chain (ctx : Ctx) (sel : String) (tr : Bool) (canc : Nat → Bool) :
    ∀ (cs : List (List ℚ)), (∀ c ∈ cs, BackendChunkLocalOk ctx c) →
    ∀ (engine : Option LoadedEngine) (i0 : Nat) (p : ℚ),
      ∃ q, p ≤ q
        ∧ WindowedChainFrom p q
            (((runChunks ctx sel tr canc engine i0 p cs).trace.map
              ChunkStep.emittedBatch).flatten)
        ∧ WindowedChainFrom p q
            (((runChunks ctx sel tr canc engine i0 p cs).trace.map
              ChunkStep.accumBatch).flatten) := by
  intro cs
  induction cs with
  | nil =>
    intro _ engine i0 p
    refine ⟨p, le_refl p, ?_, ?_⟩ <;>
      simpa [runChunks] using windowedChain_nil p
  | cons c rest ih =>
    intro h engine i0 p
    by_cases hc : canc i0
    · refine ⟨p, le_refl p, ?_, ?_⟩ <;>
        simpa [runChunks, hc] using windowedChain_nil p
    · cases hP : processChunk ctx sel tr engine i0 p c with
      | error pe =>
        refine ⟨p, le_refl p, ?_, ?_⟩ <;>
          simpa [runChunks, hc, hP] using windowedChain_nil p
      | ok pr =>
        obtain ⟨step, eng⟩ := pr
        obtain ⟨hi, hl, hp, he, ⟨hparams, haccum, hemit⟩, hb⟩ :=
          processChunk_ok ctx sel tr engine i0 p c step eng hP
        obtain ⟨r, hr, hwin, hch⟩ := h c (List.mem_cons_self c rest) eng (paramsFor sel tr eng)
        have hres : step.backendResult = r := by
          rw [hr] at hb
          exact (Except.ok.injEq _ _ ▸ hb.symm : _)
        have hd : (0 : ℚ) ≤ (c.length : ℚ) / 16000 := by positivity
        have haccw : WindowedChainFrom p (p + (c.length : ℚ) / 16000) step.accumBatch := by
          rw [haccum, hp, hres]
          exact shiftSegs_window p _ _ hwin hch
        have hemw : WindowedChainFrom p (p + (c.length : ℚ) / 16000) step.emittedBatch := by
          rw [hemit, hp, hl]
          exact emittedOf_window ctx hd step.backendResult.text haccw
        obtain ⟨q, hq, hev, hac⟩ := ih (fun c' hc' => h c' (List.mem_cons_of_mem c hc'))
          (some eng) (i0 + 1) (p + (c.length : ℚ) / 16000)
        have hstep : p ≤ p + (c.length : ℚ) / 16000 := by linarith
        refine ⟨q, le_trans hstep hq, ?_, ?_⟩
        · simp only [runChunks, hc, Bool.false_eq_true, if_false, hP, List.map_cons,
            List.flatten_cons]
          exact windowedChain_append hemw hev hstep hq
        · simp only [runChunks, hc, Bool.false_eq_true, if_false, hP, List.map_cons,
            List.flatten_cons]
          exact windowedChain_append haccw hac hstep hq

theorem flatten_filterMap_emitted (l : List ChunkStep) :
    (l.filterMap fun st =>
      if st.emittedBatch = [] then none else some st.emittedBatch).flatten
      = (l.map ChunkStep.emittedBatch).flatten := by
  induction l with
  | nil => rfl
  | cons st rest ih =>
    by_cases h : st.emittedBatch = []
    · simp [h, ih]
    · simp [h, ih]

/-! ### Claim C1: monotone timestamps -/

/-- **C1.**  If the backend returns, for each chunk, segments whose
chunk-local times lie in `[0, chunk_len / 16000]` and are non-decreasing
across the returned list, then the segments emitted via progress events
and those returned in the final result carry audio-global times that are
monotone across the whole transcription: `start ≤ end` within a segment
and `end ≤ next start` between consecutive segments. -/
theorem C1_monotone_times (ctx : Ctx) (engine0 : Option LoadedEngine)
    (canc : Nat → Bool) (audio : List ℚ) (opts : Option FileTranscriptionOptions)
    (h : ∀ c ∈ chunks 80000 audio, BackendChunkLocalOk ctx c) :
    SegMonotone ((transcribe ctx engine0 canc audio opts).progressEvents.flatten)
    ∧ ∀ t segs, (transcribe ctx engine0 canc audio opts).result = Except.ok (t, segs) →
        SegMonotone segs := by
  by_cases h1 : audio = []
  · subst h1
    constructor
    · simp [transcribe]
      exact ⟨by simp, List.chain'_nil⟩
    · intro t segs hres
      simp [transcribe] at hres
      rw [hres.2]
      exact ⟨by simp, List.chain'_nil⟩
  · cases engine0 with
    | none =>
      constructor
      · simp [transcribe, if_neg h1]
        exact ⟨by simp, List.chain'_nil⟩
      · intro t segs hres
        simp [transcribe, if_neg h1] at hres
    | some e =>
      obtain ⟨q, hq, hev, hac⟩ := runChunks_chain ctx (effectiveOpts ctx opts).1
        (effectiveOpts ctx opts).2 canc (chunks 80000 audio) h (some e) 0 0
      constructor
      · rw [transcribe_events ctx e canc audio opts h1, flatten_filterMap_emitted]
        exact segMonotone_of_windowed hev
      · intro t segs hres
        cases herr : (runChunks ctx (effectiveOpts ctx opts).1 (effectiveOpts ctx opts).2
            canc (some e) 0 0 (chunks 80000 audio)).err with
        | some er =>
          rw [transcribe_result_of_err ctx e canc audio opts h1 er herr] at hres
          simp at hres
        | none =>
          rw [transcribe_result_of_ok ctx e canc audio opts h1 herr] at hres
          simp only [Except.ok.injEq, Prod.mk.injEq] at hres
          rw [← hres.2]
          unfold finalSegments
          have := segMonotone_of_windowed hac
          obtain ⟨hw, hc⟩ := this
          constructor
          · intro s hs
            rw [List.mem_map] at hs
            obtain ⟨u, hu, rfl⟩ := hs
            exact hw u hu
          · rw [List.chain'_map]
            exact List.Chain'.imp (fun a b hab => hab) hc

theorem C1_monotone_times_witness :
    SegMonotone ((transcribe ctxSeg (some LoadedEngine.whisper) (fun _ => false)
      [(0 : ℚ)] none).progressEvents.flatten)
    ∧ ∀ t segs, (transcribe ctxSeg (some LoadedEngine.whisper) (fun _ => false)
        [(0 : ℚ)] none).result = Except.ok (t, segs) → SegMonotone segs := by
  apply C1_monotone_times
  intro c _ eng pr
  refine ⟨_, rfl, ?_, ?_⟩
  · intro s hs
    simp only [ctxSeg, Option.getD_some] at hs
    rw [List.mem_singleton] at hs
    subst hs
    refine ⟨le_refl 0, by positivity, le_refl _⟩
  · simp only [ctxSeg, Option.getD_some]
    exact List.chain'_singleton _

/-! ### Claim C4: the accumulated time offset -/

/-- **C4.**  For every non-empty input partitioned into 80,000-sample
chunks, the offset added to the segments of the chunk at index `i` (hence
to chunk `k + 1` for `i = k + 1`) is exactly the sum of
`n_j / 16000` over the actual sample counts `n_j` of the chunks
`j < i`. -/
theorem C4_offset_accumulation (ctx : Ctx) (engine0 : Option LoadedEngine)
    (canc : Nat → Bool) (audio : List ℚ) (opts : Option FileTranscriptionOptions)
    (h : audio ≠ []) :
    ∀ step ∈ (transcribe ctx engine0 canc audio opts).engineCalls,
      step.offsetApplied =
        (((chunks 80000 audio).take step.chunkIndex).map fun c => (c.length : ℚ) / 16000).sum := by
  intro step hstep
  cases engine0 with
  | none =>
    simp [transcribe, if_neg h] at hstep
  | some e =>
    rw [transcribe_calls ctx e canc audio opts h] at hstep
    obtain ⟨_, hoff, _, _⟩ := runChunks_trace_spec ctx (effectiveOpts ctx opts).1
      (effectiveOpts ctx opts).2 canc (chunks 80000 audio) (some e) 0 0 step hstep
    rw [hoff]
    simp

theorem C4_offset_accumulation_witness :
    ([(0 : ℚ)] ≠ [])
    ∧ ∀ step ∈ (transcribe ctxBasic (some LoadedEngine.whisper) (fun _ => false)
        [(0 : ℚ)] none).engineCalls,
        step.offsetApplied =
          (((chunks 80000 [(0 : ℚ)]).take step.chunkIndex).map
            fun c => (c.length : ℚ) / 16000).sum :=
  ⟨by simp,
   C4_offset_accumulation ctxBasic (some LoadedEngine.whisper) (fun _ => false)
     [(0 : ℚ)] none (by simp)⟩

/-! ### Claim C3: empty input -/

/-- **C3.**  For an empty sample buffer, `transcribe` returns
`Ok(("", []))` immediately, emits no progress events, invokes no engine,
and applies the immediate-unload policy: the engine is unloaded before
returning exactly when the unload-timeout setting is `Immediately` and a
model is loaded. -/
theorem C3_empty_input (ctx : Ctx) (engine0 : Option LoadedEngine)
    (cancelled : Nat → Bool) (options : Option FileTranscriptionOptions) :
    transcribe ctx engine0 cancelled [] options =
      { result := Except.ok ("", []), progressEvents := [], engineCalls := [],
        finalEngine :=
          if ctx.settings.model_unload_timeout = ModelUnloadTimeout.immediately
              ∧ engine0.isSome = true then none else engine0,
        unloadedImmediately :=
          if ctx.settings.model_unload_timeout = ModelUnloadTimeout.immediately
              ∧ engine0.isSome = true then true else false } := by
  by_cases h : ctx.settings.model_unload_timeout = ModelUnloadTimeout.immediately
      ∧ engine0.isSome = true <;>
    simp [transcribe, maybe_unload_immediately, h]

/-! ### Claim C10: the empty-input check precedes the loaded-model check -/

/-- **C10.**  `transcribe` checks for empty input before checking whether a
model is loaded: an empty buffer returns `Ok(("", []))` even with an empty
engine slot, and the `ModelNotLoaded` error is reachable only for non-empty
input. -/
theorem C10_empty_check_first (ctx : Ctx) (cancelled : Nat → Bool)
    (options : Option FileTranscriptionOptions) :
    (transcribe ctx none cancelled [] options).result = Except.ok ("", [])
    ∧ ∀ (engine0 : Option LoadedEngine) (audio : List ℚ),
        (transcribe ctx engine0 cancelled audio options).result =
          Except.error "Model is not loaded for transcription." → audio ≠ [] := by
  constructor
  · simp [transcribe, maybe_unload_immediately]
  · intro engine0 audio h hnil
    subst hnil
    by_cases hu : ctx.settings.model_unload_timeout = ModelUnloadTimeout.immediately
        ∧ engine0.isSome = true <;>
      simp [transcribe, maybe_unload_immediately, hu] at h

theorem C10_empty_check_first_witness :
    (transcribe ctxBasic none (fun _ => false) [] none).result = Except.ok ("", [])
    ∧ ([(0 : ℚ)] ≠ []) :=
  ⟨(C10_empty_check_first ctxBasic (fun _ => false) none).1,
   (C10_empty_check_first ctxBasic (fun _ => false) none).2 none [(0 : ℚ)] (by rfl)⟩

/-! ### Claim C7: the capability switcher -/

/-- **C7.**  When translation is requested with a Parakeet engine loaded,
the switcher picks, among downloaded Whisper-family catalog entries, one of
maximal effective score (ids containing `"turbo"` score 100, others their
catalog `accuracy_score`) and loads it; when no downloaded Whisper-family
model exists it returns success without changing the engine slot. -/
theorem C7_capability_switcher (available : List ModelInfo)
    (loadModel : String → Except String LoadedEngine) :
    (whisperCandidates available = [] →
      ensure_translation_capable_engine (some LoadedEngine.parakeet) available loadModel =
        Except.ok (some LoadedEngine.parakeet))
    ∧ (whisperCandidates available ≠ [] →
      ∃ m, m ∈ whisperCandidates available
        ∧ (∀ m' ∈ whisperCandidates available, effectiveScore m' ≤ effectiveScore m)
        ∧ ensure_translation_capable_engine (some LoadedEngine.parakeet) available loadModel =
            (loadModel m.id).map some) := by
  constructor
  · intro h
    simp [ensure_translation_capable_engine, h, maxByLast]
  · intro h
    obtain ⟨x, xs, hx⟩ := List.exists_cons_of_ne_nil h
    obtain ⟨m, hm, hmem, hmax⟩ := maxByLast_spec effectiveScore x xs
    refine ⟨m, hx ▸ hmem, fun m' hm' => hmax m' (hx ▸ hm'), ?_⟩
    simp [ensure_translation_capable_engine, hx, hm]

theorem C7_capability_switcher_witness :
    whisperCandidates catalogW ≠ []
    ∧ ∃ m, m ∈ whisperCandidates catalogW
        ∧ (∀ m' ∈ whisperCandidates catalogW, effectiveScore m' ≤ effectiveScore m)
        ∧ ensure_translation_capable_engine (some LoadedEngine.parakeet) catalogW loadW =
            (loadW m.id).map some :=
  ⟨by decide, (C7_capability_switcher catalogW loadW).2 (by decide)⟩

theorem replicate_ne_nil (n : Nat) (hn : n ≠ 0) (a : α) : List.replicate n a ≠ [] := by
  intro h
  have h2 := congrArg List.length h
  rw [List.length_replicate] at h2
  exact hn (by simpa using h2)

theorem chunks_audioTwo : chunks 80000 audioTwo = [List.replicate 80000 (0 : ℚ), [0]] := by
  unfold audioTwo
  rw [chunks_cons 80000 (by norm_num) (replicate_ne_nil 80001 (by norm_num) 0)]
  rw [List.take_replicate, List.drop_replicate]
  norm_num
  rfl

theorem ctxText_loop :
    runChunks ctxText "en" false cancAt1 (some LoadedEngine.whisper) 0 0
      [List.replicate 80000 (0 : ℚ), [0]] =
      { trace := [⟨0, 80000, 0, LoadedEngine.whisper,
          Params.whisper ⟨some "en", false, none⟩, ⟨some [], "hi"⟩,
          [⟨0, 5, "hi"⟩], []⟩],
        engine := some LoadedEngine.whisper, err := none } := by
  have htrim : rustTrim "hi" = "hi" := by decide
  rw [runChunks]
  norm_num [cancAt1, processChunk, switchedEngine, paramsFor, whisperLanguage, ctxText,
    ctxBasic, shiftSegs, emittedOf, processSegment, correctText, List.length_replicate,
    runChunks, htrim]
  decide

set_option maxRecDepth 4000 in
theorem ctxText_run :
    transcribe ctxText (some LoadedEngine.whisper) cancAt1 audioTwo none =
      { result := Except.ok ("", []),
        progressEvents := [[{ start := 0, end_ := 5, text := "hi" }]],
        engineCalls := [⟨0, 80000, 0, LoadedEngine.whisper,
          Params.whisper ⟨some "en", false, none⟩, ⟨some [], "hi"⟩,
          [⟨0, 5, "hi"⟩], []⟩],
        finalEngine := some LoadedEngine.whisper,
        unloadedImmediately := false } := by
  have h1 : audioTwo ≠ [] := by
    unfold audioTwo
    exact replicate_ne_nil 80001 (by norm_num) 0
  have heo : effectiveOpts ctxText none = ("en", false) := rfl
  rw [transcribe]
  rw [if_neg h1]
  rw [chunks_audioTwo, heo]
  dsimp only
  rw [ctxText_loop]
  simp [finalSegments, maybe_unload_immediately, ctxText, ctxBasic, String.intercalate]

theorem runChunks_cancel_take (ctx : Ctx) (sel : String) (tr : Bool) (k : Nat)
    (canc : Nat → Bool) (hc : ∀ i, canc i = decide (k ≤ i)) :
    ∀ (cs : List (List ℚ)) (engine : Option LoadedEngine) (i0 : Nat) (p : ℚ),
      runChunks ctx sel tr canc engine i0 p cs =
        runChunks ctx sel tr (fun _ => false) engine i0 p (cs.take (k - i0)) := by
  intro cs
  induction cs with
  | nil =>
    intro engine i0 p
    rw [List.take_nil]
    rfl
  | cons c rest ih =>
    intro engine i0 p
    by_cases hk : k ≤ i0
    · have hct : canc i0 = true := by
        rw [hc i0, decide_eq_true_iff]
        exact hk
      have ht : k - i0 = 0 := by omega
      rw [ht]
      simp [runChunks, hct]
    · have hcf : canc i0 = false := by
        rw [hc i0, decide_eq_false_iff_not]
        exact hk
      have ht : k - i0 = (k - (i0 + 1)) + 1 := by omega
      rw [ht, List.take_succ_cons]
      cases hP : processChunk ctx sel tr engine i0 p c with
      | error pe =>
        obtain ⟨pe1, pe2⟩ := pe
        simp only [runChunks, hcf, Bool.false_eq_true, if_false, hP]
      | ok pr =>
        obtain ⟨step, eng⟩ := pr
        simp only [runChunks, hcf, Bool.false_eq_true, if_false, hP]
        rw [ih (some eng) (i0 + 1) (p + (c.length : ℚ) / 16000)]

theorem runChunks_err_none (ctx : Ctx) (sel : String) (tr : Bool) (canc : Nat → Bool)
    (hb : ∀ eng c pr, ∃ r, ctx.backend eng c pr = Except.ok r) :
    ∀ (cs : List (List ℚ)) (e : LoadedEngine) (i0 : Nat) (p : ℚ),
      (runChunks ctx sel tr canc (some e) i0 p cs).err = none := by
  intro cs
  induction cs with
  | nil => intro e i0 p; simp [runChunks]
  | cons c rest ih =>
    intro e i0 p
    by_cases hcc : canc i0
    · simp [runChunks, hcc]
    · obtain ⟨e1, hE⟩ := switchedEngine_some ctx tr e
      obtain ⟨r, hr⟩ := hb e1 c (paramsFor sel tr e1)
      cases hP : processChunk ctx sel tr (some e) i0 p c with
      | error pe =>
        exfalso
        unfold processChunk at hP
        rw [hE] at hP
        dsimp only at hP
        rw [hr] at hP
        simp at hP
      | ok pr =>
        obtain ⟨step, eng⟩ := pr
        simp only [runChunks, hcc, Bool.false_eq_true, if_false, hP]
        exact ih eng (i0 + 1) (p + (c.length : ℚ) / 16000)

theorem finalSegments_sub_emitted (ctx : Ctx) (sel : String) (tr : Bool) (canc : Nat → Bool)
    (cs : List (List ℚ)) (engine : Option LoadedEngine) (i0 : Nat) (p : ℚ) :
    ∀ s ∈ finalSegments ctx (runChunks ctx sel tr canc engine i0 p cs).trace,
      s ∈ ((runChunks ctx sel tr canc engine i0 p cs).trace.map ChunkStep.emittedBatch).flatten := by
  intro s hs
  unfold finalSegments at hs
  rw [List.mem_map] at hs
  obtain ⟨u, hu, rfl⟩ := hs
  rw [List.mem_flatten] at hu
  obtain ⟨batch, hbmem, hub⟩ := hu
  rw [List.mem_map] at hbmem
  obtain ⟨step, hstepmem, rfl⟩ := hbmem
  obtain ⟨⟨hparams, haccum, hemit⟩, _, _, _⟩ :=
    runChunks_trace_spec ctx sel tr canc cs engine i0 p step hstepmem
  rw [List.mem_flatten]
  refine ⟨step.emittedBatch, List.mem_map_of_mem _ hstepmem, ?_⟩
  rw [hemit, emittedOf, if_pos (List.ne_nil_of_mem hub)]
  exact List.mem_map_of_mem _ hub

/-- **C2 (amended).**  When the cancellation token reads set from the poll
before chunk `k` on (`k ≥ 1`), the run is identical to an uncancelled run
over only the first `k` chunks: the engine is not invoked for chunk `k` or
any later chunk; the function returns `Ok` (when an engine is loaded and
the backend succeeds) with exactly the segments accumulated from chunks
`0..k-1`; and every segment of the final result was already emitted via a
progress event.  (The converse fails: a synthetic segment emitted for a
segment-less chunk is not retained in the final result — see the
counterexample.) -/
theorem C2_cancellation_amended (ctx : Ctx) (engine0 : Option LoadedEngine) (k : Nat)
    (canc : Nat → Bool) (audio : List ℚ) (opts : Option FileTranscriptionOptions)
    (hk : 1 ≤ k) (hc : ∀ i, canc i = decide (k ≤ i)) :
    transcribe ctx engine0 canc audio opts
      = transcribe ctx engine0 (fun _ => false) (audio.take (k * 80000)) opts
    ∧ (∀ step ∈ (transcribe ctx engine0 canc audio opts).engineCalls, step.chunkIndex < k)
    ∧ (∀ e, engine0 = some e →
        (∀ eng c pr, ∃ r, ctx.backend eng c pr = Except.ok r) →
        ∃ t segs, (transcribe ctx engine0 canc audio opts).result = Except.ok (t, segs))
    ∧ (∀ t segs, (transcribe ctx engine0 canc audio opts).result = Except.ok (t, segs) →
        ∀ s ∈ segs, s ∈ (transcribe ctx engine0 canc audio opts).progressEvents.flatten) := by
  refine ⟨?_, ?_, ?_, ?_⟩
  · by_cases h1 : audio = []
    · subst h1
      rw [List.take_nil]
      rfl
    · have hk0 : k * 80000 ≠ 0 := Nat.mul_ne_zero (by omega) (by norm_num)
      have hknz : k ≠ 0 := by omega
      have h2 : audio.take (k * 80000) ≠ [] := by
        rw [Ne, List.take_eq_nil_iff]
        push_neg
        exact ⟨hk0, h1⟩
      cases engine0 with
      | none => simp [transcribe, if_neg h1, hknz, h1]
      | some e =>
        have hlp : runChunks ctx (effectiveOpts ctx opts).1 (effectiveOpts ctx opts).2 canc
            (some e) 0 0 (chunks 80000 audio)
          = runChunks ctx (effectiveOpts ctx opts).1 (effectiveOpts ctx opts).2
            (fun _ => false) (some e) 0 0 (chunks 80000 (audio.take (k * 80000))) := by
          rw [runChunks_cancel_take ctx (effectiveOpts ctx opts).1 (effectiveOpts ctx opts).2
            k canc hc (chunks 80000 audio) (some e) 0 0]
          rw [Nat.sub_zero, chunks_take 80000 (by norm_num) k audio]
        simp only [transcribe, if_neg h1, if_neg h2, Option.isNone_some, Bool.false_eq_true,
          if_false]
        rw [hlp]
  · intro step hstep
    by_cases h1 : audio = []
    · subst h1
      simp [transcribe] at hstep
    · cases engine0 with
      | none => simp [transcribe, if_neg h1] at hstep
      | some e =>
        rw [transcribe_calls ctx e canc audio opts h1] at hstep
        rw [runChunks_cancel_take ctx (effectiveOpts ctx opts).1 (effectiveOpts ctx opts).2
          k canc hc (chunks 80000 audio) (some e) 0 0, Nat.sub_zero] at hstep
        obtain ⟨_, _, _, hidx⟩ := runChunks_trace_spec ctx (effectiveOpts ctx opts).1
          (effectiveOpts ctx opts).2 (fun _ => false) ((chunks 80000 audio).take k)
          (some e) 0 0 step hstep
        have hlen : ((chunks 80000 audio).take k).length ≤ k := by
          rw [List.length_take]
          omega
        omega
  · intro e he hb
    subst he
    by_cases h1 : audio = []
    · subst h1
      exact ⟨"", [], by simp [transcribe]⟩
    · have herr := runChunks_err_none ctx (effectiveOpts ctx opts).1 (effectiveOpts ctx opts).2
        canc hb (chunks 80000 audio) e 0 0
      exact ⟨_, _, transcribe_result_of_ok ctx e canc audio opts h1 herr⟩
  · intro t segs hres s hs
    by_cases h1 : audio = []
    · subst h1
      simp [transcribe] at hres
      rw [hres.2] at hs
      simp at hs
    · cases engine0 with
      | none => simp [transcribe, if_neg h1] at hres
      | some e =>
        cases herr : (runChunks ctx (effectiveOpts ctx opts).1 (effectiveOpts ctx opts).2
            canc (some e) 0 0 (chunks 80000 audio)).err with
        | some er =>
          rw [transcribe_result_of_err ctx e canc audio opts h1 er herr] at hres
          simp at hres
        | none =>
          rw [transcribe_result_of_ok ctx e canc audio opts h1 herr] at hres
          simp only [Except.ok.injEq, Prod.mk.injEq] at hres
          rw [← hres.2] at hs
          have hmem := finalSegments_sub_emitted ctx (effectiveOpts ctx opts).1
            (effectiveOpts ctx opts).2 canc (chunks 80000 audio) (some e) 0 0 s hs
          rw [transcribe_events ctx e canc audio opts h1, flatten_filterMap_emitted]
          exact hmem

/-- **C2 (counterexample).**  A two-chunk transcription whose first chunk
yields no segments but the text `"hi"`, cancelled before chunk 1: the
synthetic segment was emitted via a progress event, the run returns
`Ok(("", []))`, and the emitted segment is not in the final result —
refuting the claim's conjunct that segments already emitted via progress
events remain in the final result. -/
theorem C2_cancellation_cex :
    cancAt1 0 = false ∧ cancAt1 1 = true
    ∧ (transcribe ctxText (some LoadedEngine.whisper) cancAt1 audioTwo none).result
        = Except.ok ("", [])
    ∧ ({ start := 0, end_ := 5, text := "hi" } : Segment)
        ∈ (transcribe ctxText (some LoadedEngine.whisper) cancAt1 audioTwo
          none).progressEvents.flatten
    ∧ ∀ t segs,
        (transcribe ctxText (some LoadedEngine.whisper) cancAt1 audioTwo none).result
          = Except.ok (t, segs) →
        ({ start := 0, end_ := 5, text := "hi" } : Segment) ∉ segs := by
  refine ⟨rfl, rfl, ?_, ?_, ?_⟩
  · rw [ctxText_run]
  · rw [ctxText_run]
    simp
  · intro t segs hres
    rw [ctxText_run] at hres
    simp only [Except.ok.injEq, Prod.mk.injEq] at hres
    rw [← hres.2]
    simp

theorem C2_cancellation_amended_witness :
    transcribe ctxBasic (some LoadedEngine.whisper) cancAt1 [(0 : ℚ)] none
      = transcribe ctxBasic (some LoadedEngine.whisper) (fun _ => false)
          ([(0 : ℚ)].take (1 * 80000)) none
    ∧ (∀ step ∈ (transcribe ctxBasic (some LoadedEngine.whisper) cancAt1
        [(0 : ℚ)] none).engineCalls, step.chunkIndex < 1)
    ∧ (∀ e, some LoadedEngine.whisper = some e →
        (∀ eng c pr, ∃ r, ctxBasic.backend eng c pr = Except.ok r) →
        ∃ t segs, (transcribe ctxBasic (some LoadedEngine.whisper) cancAt1
          [(0 : ℚ)] none).result = Except.ok (t, segs))
    ∧ (∀ t segs, (transcribe ctxBasic (some LoadedEngine.whisper) cancAt1
        [(0 : ℚ)] none).result = Except.ok (t, segs) →
        ∀ s ∈ segs, s ∈ (transcribe ctxBasic (some LoadedEngine.whisper) cancAt1
          [(0 : ℚ)] none).progressEvents.flatten) :=
  C2_cancellation_amended ctxBasic (some LoadedEngine.whisper) 1 cancAt1 [(0 : ℚ)] none
    (by norm_num) (fun i => rfl)

theorem chunks_one : chunks 80000 [(0 : ℚ)] = [[0]] := rfl

theorem ctxHello_loop :
    runChunks ctxHello "en" false (fun _ => false) (some LoadedEngine.whisper) 0 0
      [List.replicate 80000 (0 : ℚ), [0]] =
      { trace := [⟨0, 80000, 0, LoadedEngine.whisper,
          Params.whisper ⟨some "en", false, none⟩, ⟨some [⟨0, 1, "hello"⟩], "hello"⟩,
          [⟨0, 1, "hello"⟩], [⟨0, 1, "hello"⟩]⟩,
          ⟨1, 1, 5, LoadedEngine.whisper,
          Params.whisper ⟨some "en", false, none⟩, ⟨some [⟨0, 1, "hello"⟩], "hello"⟩,
          [⟨5, 6, "hello"⟩], [⟨5, 6, "hello"⟩]⟩],
        engine := some LoadedEngine.whisper, err := none } := by
  have htrim : rustTrim "hello" = "hello" := by decide
  rw [runChunks]
  norm_num [processChunk, switchedEngine, paramsFor, whisperLanguage, ctxHello,
    ctxBasic, shiftSegs, emittedOf, processSegment, correctText, List.length_replicate,
    runChunks, htrim]
  decide

theorem transcribe_shape (ctx : Ctx) (engine0 : Option LoadedEngine) (canc : Nat → Bool)
    (audio : List ℚ) (opts : Option FileTranscriptionOptions) :
    ∀ step ∈ (transcribe ctx engine0 canc audio opts).engineCalls,
      StepShape ctx (effectiveOpts ctx opts).1 (effectiveOpts ctx opts).2 step := by
  intro step hstep
  by_cases h1 : audio = []
  · subst h1
    simp [transcribe] at hstep
  · cases engine0 with
    | none => simp [transcribe, if_neg h1] at hstep
    | some e =>
      rw [transcribe_calls ctx e canc audio opts h1] at hstep
      exact (runChunks_trace_spec ctx (effectiveOpts ctx opts).1 (effectiveOpts ctx opts).2
        canc (chunks 80000 audio) (some e) 0 0 step hstep).1

theorem ctxHello_calls :
    (transcribe ctxHello (some LoadedEngine.whisper) (fun _ => false) audioTwo
      none).engineCalls
    = [⟨0, 80000, 0, LoadedEngine.whisper,
        Params.whisper ⟨some "en", false, none⟩, ⟨some [⟨0, 1, "hello"⟩], "hello"⟩,
        [⟨0, 1, "hello"⟩], [⟨0, 1, "hello"⟩]⟩,
       ⟨1, 1, 5, LoadedEngine.whisper,
        Params.whisper ⟨some "en", false, none⟩, ⟨some [⟨0, 1, "hello"⟩], "hello"⟩,
        [⟨5, 6, "hello"⟩], [⟨5, 6, "hello"⟩]⟩] := by
  have h1 : audioTwo ≠ [] := by
    unfold audioTwo
    exact replicate_ne_nil 80001 (by norm_num) 0
  rw [transcribe_calls ctxHello LoadedEngine.whisper (fun _ => false) audioTwo none h1]
  have heo : effectiveOpts ctxHello none = ("en", false) := rfl
  rw [heo]
  dsimp only
  rw [chunks_audioTwo, ctxHello_loop]

/-- **C5 (counterexample).**  On a two-chunk input with a Whisper engine
loaded and a backend producing the non-empty text `"hello"` for each chunk,
the params passed for chunk 1 (the chunk after the first) carry
`initial_prompt = none`, not the previous chunk's text. -/
theorem C5_initial_prompt_cex :
    (transcribe ctxHello (some LoadedEngine.whisper) (fun _ => false) audioTwo
      none).engineCalls.map ChunkStep.paramsUsed
      = [Params.whisper ⟨some "en", false, none⟩, Params.whisper ⟨some "en", false, none⟩]
    ∧ (transcribe ctxHello (some LoadedEngine.whisper) (fun _ => false) audioTwo
      none).engineCalls.map (fun st => st.backendResult.text) = ["hello", "hello"]
    ∧ rustTrim "hello" ≠ ""
    ∧ (none : Option String) ≠ some "hello" := by
  refine ⟨?_, ?_, by decide, by simp⟩
  · rw [ctxHello_calls]
    rfl
  · rw [ctxHello_calls]
    rfl

/-- **C5 (amended).**  The Whisper params passed to the backend never carry
an initial prompt: for every engine invocation whose params are
Whisper-typed, `initial_prompt = none` — the previous chunk's text is not
propagated. -/
theorem C5_initial_prompt_amended (ctx : Ctx) (engine0 : Option LoadedEngine)
    (canc : Nat → Bool) (audio : List ℚ) (opts : Option FileTranscriptionOptions) :
    ∀ step ∈ (transcribe ctx engine0 canc audio opts).engineCalls,
      ∀ p, step.paramsUsed = Params.whisper p → p.initial_prompt = none := by
  intro step hstep p hp
  have h := (transcribe_shape ctx engine0 canc audio opts step hstep).1
  rw [h] at hp
  cases heng : step.engineUsed <;> rw [heng] at hp
  · simp only [paramsFor, Params.whisper.injEq] at hp
    rw [← hp]
  · simp [paramsFor] at hp

theorem C5_initial_prompt_amended_witness :
    (⟨0, 80000, 0, LoadedEngine.whisper, Params.whisper ⟨some "en", false, none⟩,
      ⟨some [⟨0, 1, "hello"⟩], "hello"⟩, [⟨0, 1, "hello"⟩], [⟨0, 1, "hello"⟩]⟩ : ChunkStep)
      ∈ (transcribe ctxHello (some LoadedEngine.whisper) (fun _ => false) audioTwo
        none).engineCalls
    ∧ (⟨some "en", false, none⟩ : WhisperInferenceParams).initial_prompt = none :=
  ⟨by rw [ctxHello_calls]; simp,
   C5_initial_prompt_amended ctxHello (some LoadedEngine.whisper) (fun _ => false) audioTwo
     none
     ⟨0, 80000, 0, LoadedEngine.whisper, Params.whisper ⟨some "en", false, none⟩,
      ⟨some [⟨0, 1, "hello"⟩], "hello"⟩, [⟨0, 1, "hello"⟩], [⟨0, 1, "hello"⟩]⟩
     (by rw [ctxHello_calls]; simp) ⟨some "en", false, none⟩ rfl⟩

/-- **C6 (amended).**  For every Whisper-typed params passed to the
backend: `"auto"` maps to `none`; exactly `"zh-Hans"` and `"zh-Hant"` are
normalized to `"zh"`; every other effective language value — including
other `"zh-"` variants — is passed through unchanged. -/
theorem C6_language_amended (ctx : Ctx) (engine0 : Option LoadedEngine)
    (canc : Nat → Bool) (audio : List ℚ) (opts : Option FileTranscriptionOptions) :
    ∀ step ∈ (transcribe ctx engine0 canc audio opts).engineCalls,
      ∀ p, step.paramsUsed = Params.whisper p →
        ((effectiveOpts ctx opts).1 = "auto" → p.language = none)
        ∧ ((effectiveOpts ctx opts).1 = "zh-Hans" ∨ (effectiveOpts ctx opts).1 = "zh-Hant" →
            p.language = some "zh")
        ∧ ((effectiveOpts ctx opts).1 ≠ "auto" ∧ (effectiveOpts ctx opts).1 ≠ "zh-Hans"
            ∧ (effectiveOpts ctx opts).1 ≠ "zh-Hant" →
            p.language = some (effectiveOpts ctx opts).1) := by
  intro step hstep p hp
  have h := (transcribe_shape ctx engine0 canc audio opts step hstep).1
  rw [h] at hp
  cases heng : step.engineUsed <;> rw [heng] at hp
  · simp only [paramsFor, Params.whisper.injEq] at hp
    rw [← hp]
    refine ⟨?_, ?_, ?_⟩
    · intro ha
      show whisperLanguage (effectiveOpts ctx opts).1 = none
      rw [whisperLanguage, if_pos ha]
    · intro ha
      show whisperLanguage (effectiveOpts ctx opts).1 = some "zh"
      have hna : (effectiveOpts ctx opts).1 ≠ "auto" := by
        rcases ha with ha | ha <;> rw [ha] <;> decide
      rw [whisperLanguage, if_neg hna, if_pos ha]
    · intro ⟨ha1, ha2, ha3⟩
      show whisperLanguage (effectiveOpts ctx opts).1 = some (effectiveOpts ctx opts).1
      rw [whisperLanguage, if_neg ha1, if_neg ?_]
      push_neg
      exact ⟨ha2, ha3⟩
  · simp [paramsFor] at hp

theorem C6_language_amended_witness :
    (⟨0, 80000, 0, LoadedEngine.whisper, Params.whisper ⟨some "en", false, none⟩,
      ⟨some [⟨0, 1, "hello"⟩], "hello"⟩, [⟨0, 1, "hello"⟩], [⟨0, 1, "hello"⟩]⟩ : ChunkStep)
      ∈ (transcribe ctxHello (some LoadedEngine.whisper) (fun _ => false) audioTwo
        none).engineCalls
    ∧ (⟨some "en", false, none⟩ : WhisperInferenceParams).language = some "en" :=
  ⟨by rw [ctxHello_calls]; simp,
   (C6_language_amended ctxHello (some LoadedEngine.whisper) (fun _ => false) audioTwo none
     ⟨0, 80000, 0, LoadedEngine.whisper, Params.whisper ⟨some "en", false, none⟩,
      ⟨some [⟨0, 1, "hello"⟩], "hello"⟩, [⟨0, 1, "hello"⟩], [⟨0, 1, "hello"⟩]⟩
     (by rw [ctxHello_calls]; simp) ⟨some "en", false, none⟩ rfl).2.2
     ⟨by decide, by decide, by decide⟩⟩

theorem ctxZh_calls :
    (transcribe ctxBasic (some LoadedEngine.whisper) (fun _ => false) [(0 : ℚ)]
      (some ⟨some "zh-CN", false⟩)).engineCalls
      = [⟨0, 1, 0, LoadedEngine.whisper, Params.whisper ⟨some "zh-CN", false, none⟩,
          ⟨none, ""⟩, [], []⟩] := by
  rw [transcribe_calls ctxBasic LoadedEngine.whisper (fun _ => false) [(0 : ℚ)]
    (some ⟨some "zh-CN", false⟩) (by simp)]
  have heo : effectiveOpts ctxBasic (some ⟨some "zh-CN", false⟩) = ("zh-CN", false) := rfl
  rw [heo]
  dsimp only
  rw [chunks_one, runChunks]
  norm_num [processChunk, switchedEngine, paramsFor, whisperLanguage, ctxBasic, shiftSegs,
    emittedOf, runChunks]
  decide

/-- **C6 (counterexample).**  The language option `"zh-CN"` starts with
`"zh-"` but is passed through to the Whisper backend unchanged, not
normalized to `"zh"`. -/
theorem C6_language_cex :
    ("zh-CN").data.take 3 = ("zh-").data
    ∧ (transcribe ctxBasic (some LoadedEngine.whisper) (fun _ => false) [(0 : ℚ)]
        (some ⟨some "zh-CN", false⟩)).engineCalls.map ChunkStep.paramsUsed
      = [Params.whisper ⟨some "zh-CN", false, none⟩]
    ∧ (some "zh-CN" : Option String) ≠ some "zh" := by
  refine ⟨by decide, ?_, by simp⟩
  rw [ctxZh_calls]
  rfl

theorem ctxText_oneloop :
    runChunks ctxText "en" false (fun _ => false) (some LoadedEngine.whisper) 0 0
      [[(0 : ℚ)]] =
      { trace := [⟨0, 1, 0, LoadedEngine.whisper,
          Params.whisper ⟨some "en", false, none⟩, ⟨some [], "hi"⟩,
          [⟨0, 1 / 16000, "hi"⟩], []⟩],
        engine := some LoadedEngine.whisper, err := none } := by
  have htrim : rustTrim "hi" = "hi" := by decide
  rw [runChunks]
  norm_num [processChunk, switchedEngine, paramsFor, whisperLanguage, ctxText,
    ctxBasic, shiftSegs, emittedOf, processSegment, correctText, runChunks, htrim]
  decide

theorem ctxText_one :
    transcribe ctxText (some LoadedEngine.whisper) (fun _ => false) [(0 : ℚ)] none =
      { result := Except.ok ("", []),
        progressEvents := [[{ start := 0, end_ := 1 / 16000, text := "hi" }]],
        engineCalls := [⟨0, 1, 0, LoadedEngine.whisper,
          Params.whisper ⟨some "en", false, none⟩, ⟨some [], "hi"⟩,
          [⟨0, 1 / 16000, "hi"⟩], []⟩],
        finalEngine := some LoadedEngine.whisper,
        unloadedImmediately := false } := by
  have h1 : [(0 : ℚ)] ≠ [] := by simp
  have heo : effectiveOpts ctxText none = ("en", false) := rfl
  simp only [transcribe, if_neg h1, Option.isNone_some, Bool.false_eq_true, if_false, heo,
    chunks_one]
  rw [ctxText_oneloop]
  simp [finalSegments, maybe_unload_immediately, ctxText, ctxBasic, String.intercalate]

/-- **C8 (counterexample).**  A one-chunk transcription whose backend
returns no segments and the text `"hi"` emits the synthetic segment via the
progress event, but the final returned segment list and concatenated text
are empty — the synthetic segment is not part of the final result. -/
theorem C8_synthetic_cex :
    (transcribe ctxText (some LoadedEngine.whisper) (fun _ => false) [(0 : ℚ)]
      none).progressEvents = [[{ start := 0, end_ := 1 / 16000, text := "hi" }]]
    ∧ (transcribe ctxText (some LoadedEngine.whisper) (fun _ => false) [(0 : ℚ)]
      none).result = Except.ok ("", []) := by
  rw [ctxText_one]
  exact ⟨rfl, rfl⟩

/-- **C8 (amended).**  A chunk whose backend result contains no segments
but a non-empty trimmed text contributes exactly one synthetic segment
spanning the chunk's global time window to the progress event emitted for
that chunk; it contributes nothing to the accumulator, hence nothing to
the final segment list or concatenated text. -/
theorem C8_synthetic_amended (ctx : Ctx) (engine0 : Option LoadedEngine)
    (canc : Nat → Bool) (audio : List ℚ) (opts : Option FileTranscriptionOptions) :
    ∀ step ∈ (transcribe ctx engine0 canc audio opts).engineCalls,
      step.backendResult.segments.getD [] = [] →
      rustTrim step.backendResult.text ≠ "" →
      step.accumBatch = []
      ∧ step.emittedBatch = [⟨step.offsetApplied,
          step.offsetApplied + (step.chunkLen : ℚ) / 16000,
          rustTrim step.backendResult.text⟩]
      ∧ step.emittedBatch ∈ (transcribe ctx engine0 canc audio opts).progressEvents := by
  intro step hstep hseg htext
  obtain ⟨hparams, haccum, hemit⟩ := transcribe_shape ctx engine0 canc audio opts step hstep
  have hacc : step.accumBatch = [] := by
    rw [haccum, hseg]
    rfl
  have hring : (step.offsetApplied + (step.chunkLen : ℚ) / 16000) - (step.chunkLen : ℚ) / 16000
      = step.offsetApplied := by ring
  have hem : step.emittedBatch = [⟨step.offsetApplied,
      step.offsetApplied + (step.chunkLen : ℚ) / 16000,
      rustTrim step.backendResult.text⟩] := by
    rw [hemit, hacc, emittedOf]
    simp only [ne_eq, not_true_eq_false, if_false, htext, not_false_eq_true, if_true]
    rw [hring]
  refine ⟨hacc, hem, ?_⟩
  by_cases h1 : audio = []
  · subst h1
    simp [transcribe] at hstep
  · cases engine0 with
    | none => simp [transcribe, if_neg h1] at hstep
    | some e =>
      rw [transcribe_events ctx e canc audio opts h1]
      rw [transcribe_calls ctx e canc audio opts h1] at hstep
      rw [List.mem_filterMap]
      refine ⟨step, hstep, ?_⟩
      rw [if_neg ?_]
      rw [hem]
      simp

theorem C8_synthetic_amended_witness :
    (⟨0, 1, 0, LoadedEngine.whisper, Params.whisper ⟨some "en", false, none⟩,
      ⟨some [], "hi"⟩, [⟨0, 1 / 16000, "hi"⟩], []⟩ : ChunkStep)
      ∈ (transcribe ctxText (some LoadedEngine.whisper) (fun _ => false) [(0 : ℚ)]
        none).engineCalls
    ∧ ((⟨some [], "hi"⟩ : TranscriptionResult).segments.getD [] = [])
    ∧ rustTrim "hi" ≠ ""
    ∧ ([⟨0, 1 / 16000, "hi"⟩] : List Segment)
        = [⟨(0 : ℚ), (0 : ℚ) + ((1 : Nat) : ℚ) / 16000, rustTrim "hi"⟩]
    ∧ ([⟨0, 1 / 16000, "hi"⟩] : List Segment)
        ∈ (transcribe ctxText (some LoadedEngine.whisper) (fun _ => false) [(0 : ℚ)]
          none).progressEvents := by
  have hmem : (⟨0, 1, 0, LoadedEngine.whisper, Params.whisper ⟨some "en", false, none⟩,
      ⟨some [], "hi"⟩, [⟨0, 1 / 16000, "hi"⟩], []⟩ : ChunkStep)
      ∈ (transcribe ctxText (some LoadedEngine.whisper) (fun _ => false) [(0 : ℚ)]
        none).engineCalls := by
    rw [ctxText_one]
    simp
  have h := C8_synthetic_amended ctxText (some LoadedEngine.whisper) (fun _ => false)
    [(0 : ℚ)] none
    ⟨0, 1, 0, LoadedEngine.whisper, Params.whisper ⟨some "en", false, none⟩,
      ⟨some [], "hi"⟩, [⟨0, 1 / 16000, "hi"⟩], []⟩ hmem rfl (by decide)
  exact ⟨hmem, rfl, by decide, h.2.1, h.2.2⟩

/-! ### Claim C9: the audio decoder's failure behavior -/

/-- **C9 (behavior at the failing input).**  An unsupported container
format or codec makes `read_audio_file` panic through `.expect`
(`utils.rs:54`, `:68`) instead of returning a failure; per-frame decode
errors and packets of other tracks are skipped, an I/O end-of-stream ends
decoding normally with the samples collected so far, and a failing
`File::open` is returned as an error. -/
theorem C9_decoder_behavior :
    read_audio_file envProbeFail Except.ok = DecoderOutcome.panicked "Unsupported format"
    ∧ read_audio_file envCodecFail Except.ok = DecoderOutcome.panicked "Unsupported codec"
    ∧ read_audio_file envGood Except.ok = DecoderOutcome.ok [1, 2]
    ∧ read_audio_file envOpenFail Except.ok = DecoderOutcome.error "file not found" :=
  ⟨rfl, rfl, rfl, rfl⟩

end Handy
